import Mathlib

/-!
Verification of the `lit` tangling tool (`src/main.rs`).

The development shallowly embeds the core of the program:

* `Position` — the validated ordering key (Rust `struct Position(String)`
  with `TryFrom<String>` as the only constructor; the subtype carries the
  invariant that construction enforces).
* `Block` — one extracted fragment (`Block::try_from(&Node)`), together
  with a model `urlParse` of the external `url` crate's `Url::parse`,
  restricted to the features the program uses (scheme / authority / path /
  query pairs, no percent-decoding).
* `FileBlocks` — the per-destination aggregation unit, with `add` and
  `to_content` (stable sort by position key, blank-line join, trailing
  newline).
* `Lit.parse_markdown`, `Lit.read_blocks`, `Lit.tangle` — the pipeline,
  with the document tree given as the list of root children (the external
  markdown parser is a collaborator) and the write phase modelled as the
  returned list of `(path, content)` pairs.
-/

/-- Errors from validating a position key (Rust `enum PositionError`;
the third variant is named `ReservedPrefix` in the source). -/
inductive PositionError where
  | empty : PositionError
  | invalidCharacters : String → PositionError
  | reservedSentinel : String → PositionError
deriving DecidableEq, Repr

/-- The invariant established by `Position::try_from`: non-empty, only
lowercase ASCII letters, and not starting with the sentinel letter 'm'. -/
def posOk (s : String) : Bool :=
  !(s == "") && s.data.all (fun c => c.isLower) && !(s.data.head? == some 'm')

/-- A validated position key (Rust `struct Position(String)`); the only
way to build one in the source is `Position::try_from`, so the validation
invariant is carried in the type. -/
def Position := { s : String // posOk s = true }

instance : DecidableEq Position := fun a b =>
  decidable_of_iff (a.val = b.val) Subtype.ext_iff.symm

/-- The underlying string of a position key (Rust `Position::as_ref`). -/
def Position.as_ref (p : Position) : String := p.val

/-- `Position::try_from`: reject empty keys, keys with characters other
than lowercase ASCII letters, and keys starting with 'm'. -/
def Position.try_from (s : String) : Except PositionError Position :=
  if h1 : (s == "") = true then .error .empty
  else if h2 : (s.data.all fun c => c.isLower) = false then
    .error (.invalidCharacters s)
  else if h3 : (s.data.head? == some 'm') = true then
    .error (.reservedSentinel s)
  else
    .ok ⟨s, by
      unfold posOk
      rw [Bool.and_eq_true, Bool.and_eq_true]
      refine ⟨⟨?_, ?_⟩, ?_⟩
      · simpa using h1
      · simpa using h2
      · simpa using h3⟩

instance {ε α : Type} [DecidableEq ε] [DecidableEq α] : DecidableEq (Except ε α)
  | .ok a, .ok b => decidable_of_iff (a = b) (by simp)
  | .error a, .error b => decidable_of_iff (a = b) (by simp)
  | .ok _, .error _ => .isFalse (by simp)
  | .error _, .ok _ => .isFalse (by simp)

/-- Errors raised while aggregating blocks (the program uses dynamic
`eyre` errors; these are the two kinds it actually produces in
`parse_markdown` / `read_blocks`). -/
inductive LitError where
  | duplicateKey : String → LitError
  | positionError : PositionError → LitError
deriving DecidableEq, Repr

/-- Blocks destined for one output file (Rust `struct FileBlocks`). -/
structure FileBlocks where
  positioned : List (Position × String)
  unpositioned : List String
deriving DecidableEq

/-- `FileBlocks::default()`. -/
def FileBlocks.default : FileBlocks := ⟨[], []⟩

/-- `FileBlocks::add`: a positioned block is rejected when its key is
already present for this file; an unpositioned block is always accepted. -/
def FileBlocks.add (fb : FileBlocks) (at? : Option Position) (content : String) :
    Except LitError FileBlocks :=
  match at? with
  | some a =>
      if fb.positioned.any (fun pc => pc.1 = a) then
        .error (.duplicateKey a.as_ref)
      else
        .ok { fb with positioned := fb.positioned ++ [(a, content)] }
  | none => .ok { fb with unpositioned := fb.unpositioned ++ [content] }

/-- The `all_blocks` vector built inside `FileBlocks::to_content`:
positioned blocks as `(key, content)`, then unpositioned blocks tagged
with the implicit sentinel key `"m"`. -/
def FileBlocks.all_blocks (fb : FileBlocks) : List (String × String) :=
  fb.positioned.map (fun pc => (pc.1.as_ref, pc.2)) ++
    fb.unpositioned.map (fun c => ("m", c))

/-- The comparator of `all_blocks.sort_by(|a, b| a.0.cmp(b.0))`:
lexicographic comparison of the keys' character sequences (Rust's
`str::cmp`, which for these keys is the same byte-lexicographic order). -/
def blockRel (a b : String × String) : Prop := a.1.data ≤ b.1.data

instance : DecidableRel blockRel := fun a b =>
  inferInstanceAs (Decidable (a.1.data ≤ b.1.data))

instance : IsTotal (String × String) blockRel := ⟨fun a b => le_total a.1.data b.1.data⟩

instance : IsTrans (String × String) blockRel := ⟨fun _ _ _ => le_trans⟩

/-- `all_blocks` after the stable `sort_by` on the key. Rust's `sort_by`
is a stable sort, and the result of a stable sort is uniquely determined
by the comparator and the input order, so it is modelled by the stable
`insertionSort`. -/
def FileBlocks.sorted_blocks (fb : FileBlocks) : List (String × String) :=
  fb.all_blocks.insertionSort blockRel

/-- `FileBlocks::to_content`: sort all blocks by key (stably), join the
contents with a blank line, and append one trailing newline. -/
def FileBlocks.to_content (fb : FileBlocks) : String :=
  String.intercalate "\n\n" (fb.sorted_blocks.map Prod.snd) ++ "\n"

example : Position.try_from "10" = .error (.invalidCharacters "10") := by decide
example : Position.try_from "" = .error .empty := by decide
example : Position.try_from "main" = .error (.reservedSentinel "main") := by decide
example : (Position.try_from "abc").isOk = true := by decide

/-! ## Model of the external `url` crate (restricted to what the program uses) -/

/-- Errors from parsing a block out of a markdown node
(Rust `enum BlockError`). -/
inductive BlockError where
  | notCodeNode : BlockError
  | noLanguage : BlockError
  | notTangleUrl : BlockError
  | notTangleScheme : BlockError
  | missingPath : BlockError
  | positionError : PositionError → BlockError
deriving DecidableEq, Repr

/-- The pieces of a parsed URL that `Block::try_from` consumes:
`Url::scheme`, `Url::host_str`, `Url::path`, `Url::query_pairs`. -/
structure ParsedUrl where
  scheme : String
  host : Option String
  path : String
  query : List (String × String)
deriving DecidableEq, Repr

/-- Split a character list at the first character satisfying `p`,
dropping that character; `none` when no character satisfies `p`. -/
def splitFirst (p : Char → Bool) : List Char → Option (List Char × List Char)
  | [] => none
  | c :: rest =>
      if p c then some ([], rest)
      else
        match splitFirst p rest with
        | none => none
        | some (a, b) => some (c :: a, b)

/-- Characters allowed after the first character of a URL scheme. -/
def isSchemeChar (c : Char) : Bool :=
  c.isAlphanum || c == '+' || c == '-' || c == '.'

/-- Split a query string on `&` into segments. -/
def splitAmp (l : List Char) : List (List Char) :=
  l.foldr
    (fun c acc =>
      match acc with
      | seg :: rest => if c == '&' then [] :: seg :: rest else (c :: seg) :: rest
      | [] => [[c]])
    [[]]

/-- One `key=value` query segment (no `=` means an empty value). -/
def parsePair (seg : List Char) : String × String :=
  match splitFirst (· == '=') seg with
  | none => (String.mk seg, "")
  | some (k, v) => (String.mk k, String.mk v)

/-- Query pairs, as `Url::query_pairs` yields them for the inputs this
program handles (empty segments are skipped; percent-decoding is not
modelled — position keys are plain ASCII). -/
def parseQuery (q : List Char) : List (String × String) :=
  ((splitAmp q).filter (fun seg => !seg.isEmpty)).map parsePair

/-- Model of `Url::parse` for a non-special scheme such as `tangle`:
`scheme:[//authority][path][?query]`. A string without a valid scheme
and colon fails to parse (as a relative URL does in the `url` crate). -/
def urlParse (s : String) : Option ParsedUrl :=
  match splitFirst (· == ':') s.data with
  | none => none
  | some (schemeCs, rest) =>
      match schemeCs with
      | [] => none
      | c :: cs =>
          if !(c.isAlpha && cs.all isSchemeChar) then none
          else
            let scheme := String.mk ((c :: cs).map Char.toLower)
            let (host, afterAuth) :=
              match rest with
              | '/' :: '/' :: r =>
                  let auth := r.takeWhile (fun ch => ch != '/' && ch != '?' && ch != '#')
                  let rem := r.drop auth.length
                  (if auth.isEmpty then none else some (String.mk auth), rem)
              | _ => (none, rest)
            let pathCs := afterAuth.takeWhile (fun ch => ch != '?' && ch != '#')
            let afterPath := afterAuth.drop pathCs.length
            let queryCs :=
              match afterPath with
              | '?' :: q => q.takeWhile (fun ch => ch != '#')
              | _ => []
            some { scheme := scheme, host := host, path := String.mk pathCs,
                   query := parseQuery queryCs }

example : urlParse "tangle://src/main.rs" =
    some ⟨"tangle", some "src", "/main.rs", []⟩ := by decide
example : urlParse "tangle://lib.rs?at=a" =
    some ⟨"tangle", some "lib.rs", "", [("at", "a")]⟩ := by decide
example : urlParse "rust" = none := by decide
example : urlParse "tangle:" = some ⟨"tangle", none, "", []⟩ := by decide
example : urlParse "tangle://output.txt?at=" =
    some ⟨"tangle", some "output.txt", "", [("at", "")]⟩ := by decide

/-! ## Markdown nodes and block extraction -/

/-- The shapes of mdast nodes the program distinguishes: a fenced code
node (language string and raw body) versus everything else; structural
wrappers carry their children so that nesting can be expressed. -/
inductive Node where
  | code : Option String → String → Node
  | blockquote : List Node → Node
  | listNode : List Node → Node
  | paragraph : String → Node
  | heading : String → Node

/-- One extracted tangle block (Rust `struct Block`); the destination
`PathBuf` is modelled as its string. -/
structure Block where
  path : String
  position : Option Position
  content : String
deriving DecidableEq

/-- The part of `Block::try_from` that runs after `Url::parse` succeeded
on the language string of a code node: check the `tangle` scheme, require
a host, build the destination path as host + path, and validate the
optional `at` query parameter. -/
def Block.try_from_url (parsed : ParsedUrl) (value : String) :
    Except BlockError Block :=
  if parsed.scheme ≠ "tangle" then .error .notTangleScheme
  else
    match parsed.host with
    | none => .error .missingPath
    | some host =>
        let path_str :=
          if parsed.path = "" ∨ parsed.path = "/" then host
          else host ++ parsed.path
        match parsed.query.find? (fun kv => kv.1 == "at") with
        | none => .ok { path := path_str, position := none, content := value }
        | some kv =>
            match Position.try_from kv.2 with
            | .error e => .error (.positionError e)
            | .ok p => .ok { path := path_str, position := some p, content := value }

/-- `Block::try_from(&Node)`: only code nodes with a language string that
parses as a `tangle` URL yield a block. -/
def Block.try_from (node : Node) : Except BlockError Block :=
  match node with
  | .code lang value =>
      match lang with
      | none => .error .noLanguage
      | some l =>
          match urlParse l with
          | none => .error .notTangleUrl
          | some parsed => Block.try_from_url parsed value
  | _ => .error .notCodeNode

/-! ## The aggregation map and the pipeline -/

/-- The `HashMap<PathBuf, FileBlocks>` of the program, modelled as an
association list with at most one entry per path. -/
abbrev Files := List (String × FileBlocks)

/-- `files.entry(path).or_default()` read side: the blocks recorded for
`path`, or an empty `FileBlocks`. -/
def Files.getD (fs : Files) (p : String) : FileBlocks :=
  match fs.find? (fun e => e.1 == p) with
  | some e => e.2
  | none => FileBlocks.default

/-- `files.entry(path).or_default()` write side: replace the entry for
`p` when present, otherwise append it. -/
def Files.insert (fs : Files) (p : String) (fb : FileBlocks) : Files :=
  if fs.any (fun e => e.1 == p) then
    fs.map (fun e => if e.1 == p then (p, fb) else e)
  else
    fs ++ [(p, fb)]

/-- The loop body of `Lit::parse_markdown` for one recognized block:
`files.entry(block.path).or_default().add(block.position, block.content)`. -/
def Files.add_block (fs : Files) (b : Block) : Except LitError Files :=
  match (fs.getD b.path).add b.position b.content with
  | .ok fb => .ok (fs.insert b.path fb)
  | .error e => .error e

/-- The loop of `Lit::parse_markdown` over the root's children: each
child is tried as a block; position errors are propagated (`bail!`),
every other extraction error is skipped silently. -/
def parseChildren (fs : Files) : List Node → Except LitError Files
  | [] => .ok fs
  | child :: rest =>
      match Block.try_from child with
      | .ok block =>
          match fs.add_block block with
          | .ok fs2 => parseChildren fs2 rest
          | .error e => .error e
      | .error (.positionError e) => .error (.positionError e)
      | .error _ => parseChildren fs rest

/-- `Lit::parse_markdown`, taking the markdown document as the list of
children of the mdast root (the external markdown parser is a
collaborator that produces this tree). -/
def Lit.parse_markdown (children : List Node) : Except LitError Files :=
  parseChildren [] children

/-- The merge loop of `Lit::read_blocks` for one destination: re-add all
positioned blocks, then all unpositioned blocks, into the run-wide entry. -/
def mergeFileBlocks (target : FileBlocks) (fbs : FileBlocks) :
    Except LitError FileBlocks := do
  let t ← fbs.positioned.foldlM (fun t pc => t.add (some pc.1) pc.2) target
  fbs.unpositioned.foldlM (fun t c => t.add none c) t

/-- `Lit::read_blocks`: parse every document and fold all of its
per-file blocks into one run-wide map. -/
def Lit.read_blocks (docs : List (List Node)) : Except LitError Files :=
  docs.foldlM
    (fun fs doc => do
      let blocks ← Lit.parse_markdown doc
      blocks.foldlM
        (fun fs2 entry => do
          let target ← mergeFileBlocks (fs2.getD entry.1) entry.2
          pure (fs2.insert entry.1 target))
        fs)
    []

/-- `Lit::tangle`: read and aggregate all blocks, then render each
destination; the write phase is modelled as the returned list of
`(path, content)` pairs actually written on success. -/
def Lit.tangle (docs : List (List Node)) :
    Except LitError (List (String × String)) := do
  let blocks ← Lit.read_blocks docs
  pure (blocks.map (fun e => (e.1, e.2.to_content)))

example : Lit.parse_markdown [Node.code (some "tangle://src/main.rs") "X"] =
    .ok [("src/main.rs", ⟨[], ["X"]⟩)] := rfl
example : Lit.parse_markdown [Node.code (some "tangle:") "X"] = .ok [] := rfl
example : Lit.parse_markdown [Node.code (some "tangle://output.txt?at=10") "Ten"] =
    .error (.positionError (.invalidCharacters "10")) := rfl

/-! ## Shared helper facts -/

/-- Concrete position keys used to instantiate theorems. -/
def posA : Position := ⟨"a", by decide⟩

def posZ : Position := ⟨"z", by decide⟩

/-- A sample aggregate: blocks at "z" and "a" and one unpositioned block,
in that discovery order. -/
def fbEx : FileBlocks := ⟨[(posZ, "C"), (posA, "A")], ["B"]⟩

/-- `parseChildren` processes an appended list by processing the two
parts in sequence, propagating an error from the first part. -/
theorem parseChildren_append (fs : Files) (l1 l2 : List Node) :
    parseChildren fs (l1 ++ l2) =
      (parseChildren fs l1).bind fun fs2 => parseChildren fs2 l2 := by
  induction l1 generalizing fs with
  | nil => rfl
  | cons c rest ih =>
      simp only [List.cons_append, parseChildren]
      split
      · split
        · apply ih
        · rfl
      · rfl
      · apply ih

/-! ## Claims -/

/-- C1 counterexample: a fenced code fragment whose tangle address has
the non-empty authority `src` (language string `tangle://src/main.rs`)
does not fail the run; the whole run succeeds and writes a file, with
the authority reinterpreted as the leading segment of the destination
path `src/main.rs`. -/
theorem c1_counterexample :
    Lit.tangle [[Node.code (some "tangle://src/main.rs") "X"]] =
      .ok [("src/main.rs", "X\n")] := rfl

/-- C1 (amended): for every tangle-scheme address with authority `h`, a
path and no query, block extraction succeeds and the destination path is
the authority concatenated with the URL path (the authority becomes the
leading path segment); there is no authority-rejection error. -/
theorem c1_theorem (h p v : String) :
    Block.try_from_url ⟨"tangle", some h, p, []⟩ v =
      .ok ⟨if p = "" ∨ p = "/" then h else h ++ p, none, v⟩ := rfl

/-- C2: for valid position keys `a < b` (lexicographically), every block
recorded at `a` occupies an earlier index than every block recorded at
`b` in the sorted list that `to_content` renders, whatever the discovery
order inside `FileBlocks` was. -/
theorem c2_theorem (fb : FileBlocks) (a b ca cb : String)
    (_hva : posOk a = true) (_hvb : posOk b = true) (hab : a.data < b.data)
    (ha : (a, ca) ∈ fb.all_blocks) (hb : (b, cb) ∈ fb.all_blocks) :
    ∃ i j : Fin fb.sorted_blocks.length, (i : ℕ) < (j : ℕ) ∧
      fb.sorted_blocks.get i = (a, ca) ∧ fb.sorted_blocks.get j = (b, cb) := by
  have hmem_a : (a, ca) ∈ fb.sorted_blocks :=
    (List.mem_insertionSort blockRel).mpr ha
  have hmem_b : (b, cb) ∈ fb.sorted_blocks :=
    (List.mem_insertionSort blockRel).mpr hb
  obtain ⟨i, hi⟩ := List.mem_iff_get.mp hmem_a
  obtain ⟨j, hj⟩ := List.mem_iff_get.mp hmem_b
  have hsorted : List.Sorted blockRel fb.sorted_blocks :=
    List.sorted_insertionSort blockRel _
  rcases lt_trichotomy (i : ℕ) (j : ℕ) with h | h | h
  · exact ⟨i, j, h, hi, hj⟩
  · exfalso
    have heq : (a, ca) = (b, cb) := by
      rw [← hi, ← hj]
      congr 1
      exact Fin.ext h
    have : a.data = b.data := by rw [(Prod.mk.injEq _ _ _ _).mp heq |>.1]
    exact absurd hab (by rw [this]; exact lt_irrefl _)
  · exfalso
    have hrel : blockRel (fb.sorted_blocks.get j) (fb.sorted_blocks.get i) :=
      hsorted.rel_get_of_lt h
    rw [hi, hj] at hrel
    exact absurd (lt_of_lt_of_le hab hrel) (lt_irrefl _)

/-- C2 witness: in the sample aggregate (discovery order `z`, `a`,
unpositioned) the block at `a` concretely renders before the block at
`z`. -/
theorem c2_witness :
    ∃ i j : Fin fbEx.sorted_blocks.length, (i : ℕ) < (j : ℕ) ∧
      fbEx.sorted_blocks.get i = ("a", "A") ∧
      fbEx.sorted_blocks.get j = ("z", "C") :=
  c2_theorem fbEx "a" "z" "A" "C" (by decide) (by decide) (by decide)
    (by decide) (by decide)

/-- C3: rendering joins the position-sorted contents with one blank line
and appends exactly one trailing newline; for the three fragments of the
spec's example (unpositioned `B`, at `a` the body `A`, at `z` the body
`C`, in that discovery order) the run renders `A\n\nB\n\nC\n`. -/
theorem c3_theorem :
    (∀ fb : FileBlocks,
        fb.to_content =
          String.intercalate "\n\n" (fb.sorted_blocks.map Prod.snd) ++ "\n") ∧
      Lit.tangle [[Node.code (some "tangle://lib.rs") "B",
          Node.code (some "tangle://lib.rs?at=a") "A",
          Node.code (some "tangle://lib.rs?at=z") "C"]] =
        .ok [("lib.rs", "A\n\nB\n\nC\n")] :=
  ⟨fun _ => rfl, rfl⟩

/-- C4: adding a second block with the same explicit position key for
the same destination path fails at insertion time with the duplicate-key
error, while blocks with equal keys for two different destination paths
are both accepted. -/
theorem c4_theorem (a : Position) (c1 c2 p1 p2 : String) (hne : p1 ≠ p2) :
    ((Files.add_block [] ⟨p1, some a, c1⟩).bind
        (fun fs => fs.add_block ⟨p1, some a, c2⟩) =
      .error (.duplicateKey a.as_ref)) ∧
    ((Files.add_block [] ⟨p1, some a, c1⟩).bind
        (fun fs => fs.add_block ⟨p2, some a, c2⟩) =
      .ok [(p1, ⟨[(a, c1)], []⟩), (p2, ⟨[(a, c2)], []⟩)]) := by
  have h21 : (p2 == p1) = false := by simpa using hne.symm
  have h12 : (p1 == p2) = false := by simpa using hne
  constructor
  · simp [Files.add_block, Files.getD, Files.insert, FileBlocks.add,
      FileBlocks.default, Except.bind]
  · simp [Files.add_block, Files.getD, Files.insert, FileBlocks.add,
      FileBlocks.default, Except.bind, h21, h12, hne]

/-- C4 witness: the key `a` is concretely rejected as a duplicate within
`f.rs` but accepted for the two files `f.rs` and `g.rs`. -/
theorem c4_witness :
    ((Files.add_block [] ⟨"f.rs", some posA, "x"⟩).bind
        (fun fs => fs.add_block ⟨"f.rs", some posA, "y"⟩) =
      .error (.duplicateKey posA.as_ref)) ∧
    ((Files.add_block [] ⟨"f.rs", some posA, "x"⟩).bind
        (fun fs => fs.add_block ⟨"g.rs", some posA, "y"⟩) =
      .ok [("f.rs", ⟨[(posA, "x")], []⟩), ("g.rs", ⟨[(posA, "y")], []⟩)]) :=
  c4_theorem posA "x" "y" "f.rs" "g.rs" (by decide)

/-- C5: adding an unpositioned block always succeeds (it can never raise
a duplicate-key error), and the unpositioned blocks — the entries that
carry the sentinel key `"m"` in the sorted render list — appear there
exactly in their insertion order. -/
theorem c5_theorem :
    (∀ (fb : FileBlocks) (c : String),
        fb.add none c = .ok { fb with unpositioned := fb.unpositioned ++ [c] }) ∧
      ∀ fb : FileBlocks,
        (fb.sorted_blocks.filter (fun x => x.1 == "m")).map Prod.snd =
          fb.unpositioned := by
  refine ⟨fun fb c => rfl, fun fb => ?_⟩
  have hpair : (fb.unpositioned.map fun c => (("m" : String), c)).Pairwise blockRel := by
    rw [List.pairwise_map]
    exact List.pairwise_of_forall fun x y => le_refl _
  have hsub_all :
      List.Sublist (fb.unpositioned.map fun c => (("m" : String), c)) fb.all_blocks :=
    List.sublist_append_right _ _
  have hsub :
      List.Sublist (fb.unpositioned.map fun c => (("m" : String), c)) fb.sorted_blocks :=
    List.sublist_insertionSort hpair hsub_all
  have hfilter_m :
      (fb.unpositioned.map fun c => (("m" : String), c)).filter (fun x => x.1 == "m") =
        fb.unpositioned.map fun c => (("m" : String), c) := by
    rw [List.filter_eq_self]
    intro x hx
    rcases List.mem_map.mp hx with ⟨c, _, rfl⟩
    simp
  have hsub_f :
      List.Sublist (fb.unpositioned.map fun c => (("m" : String), c))
        (fb.sorted_blocks.filter (fun x => x.1 == "m")) := by
    rw [← hfilter_m]
    exact hsub.filter _
  have hperm :
      List.Perm (fb.sorted_blocks.filter (fun x => x.1 == "m"))
        (fb.all_blocks.filter (fun x => x.1 == "m")) :=
    (List.perm_insertionSort blockRel _).filter _
  have hall_filter :
      fb.all_blocks.filter (fun x => x.1 == "m") =
        fb.unpositioned.map fun c => (("m" : String), c) := by
    rw [FileBlocks.all_blocks, List.filter_append]
    have h1 :
        (fb.positioned.map fun pc => (pc.1.as_ref, pc.2)).filter
            (fun x => x.1 == "m") = [] := by
      rw [List.filter_eq_nil_iff]
      intro x hx
      rcases List.mem_map.mp hx with ⟨pc, _, rfl⟩
      intro hcontra
      have hval : pc.1.as_ref = "m" := by simpa using hcontra
      have hp := pc.1.property
      rw [Position.as_ref] at hval
      rw [hval] at hp
      exact absurd hp (by decide)
    rw [h1, hfilter_m, List.nil_append]
  have hlen :
      (fb.sorted_blocks.filter (fun x => x.1 == "m")).length =
        (fb.unpositioned.map fun c => (("m" : String), c)).length := by
    rw [hperm.length_eq, hall_filter]
  have heq :
      fb.sorted_blocks.filter (fun x => x.1 == "m") =
        fb.unpositioned.map fun c => (("m" : String), c) :=
    (hsub_f.eq_of_length hlen.symm).symm
  rw [heq, List.map_map]
  simp

/-- C6: an explicit position key that is empty or contains a character
other than a lowercase ASCII letter is rejected by `Position::try_from`
(never coerced to the sentinel), and a fragment whose `at` value is
`"10"` aborts the whole run with an invalid-character error. -/
theorem c6_theorem :
    (∀ s : String,
        s = "" ∨ s.data.all (fun c => c.isLower) = false →
          ∃ e, Position.try_from s = .error e) ∧
      Lit.tangle [[Node.code (some "tangle://output.txt?at=10") "Ten"]] =
        .error (.positionError (.invalidCharacters "10")) := by
  refine ⟨fun s h => ?_, rfl⟩
  rcases h with h | h
  · exact ⟨.empty, by simp [Position.try_from, h]⟩
  · have hne : (s == "") = false := by
      rcases eq_or_ne s "" with rfl | hs
      · simp at h
      · simp [hs]
    exact ⟨.invalidCharacters s, by simp [Position.try_from, hne, h]⟩

/-- C6 witness: the key `"10"` is concretely rejected. -/
theorem c6_witness : ∃ e, Position.try_from "10" = .error e :=
  c6_theorem.1 "10" (Or.inr (by decide))

/-- C7: only direct children of the document root are tangled — a
fragment nested inside a block quote or a list item contributes nothing
to the run, whatever its children contain (even fragments with valid
tangle addresses), so parsing is unchanged when the wrapper is removed
together with its contents. -/
theorem c7_theorem (pre inner post : List Node) :
    (Lit.parse_markdown (pre ++ Node.blockquote inner :: post) =
        Lit.parse_markdown (pre ++ post)) ∧
      Lit.parse_markdown (pre ++ Node.listNode inner :: post) =
        Lit.parse_markdown (pre ++ post) := by
  unfold Lit.parse_markdown
  constructor
  · rw [parseChildren_append, parseChildren_append]
    exact rfl
  · rw [parseChildren_append, parseChildren_append]
    exact rfl

/-- C8: when reading and aggregating the documents fails (invalid or
duplicate position key anywhere), `tangle` propagates the error and the
write phase never runs, so no output file is produced. -/
theorem c8_theorem (docs : List (List Node)) (e : LitError)
    (h : Lit.read_blocks docs = .error e) : Lit.tangle docs = .error e := by
  unfold Lit.tangle
  rw [h]
  rfl

/-- C8 witness: a run with two fragments at the same key `a` for one
destination concretely aborts with the duplicate-key error and writes
nothing. -/
theorem c8_witness :
    Lit.tangle [[Node.code (some "tangle://o.txt?at=a") "1",
        Node.code (some "tangle://o.txt?at=a") "2"]] =
      .error (.duplicateKey "a") :=
  c8_theorem _ _ rfl

/-- C9 counterexample: a tangle-scheme fragment with no authority and no
path (language string `tangle:`) does not fail the run; the run succeeds
and simply writes nothing — the fragment is silently skipped. -/
theorem c9_counterexample :
    Lit.tangle [[Node.code (some "tangle:") "X"]] = .ok [] := rfl

/-- C9 (amended): a tangle-scheme address with no authority component
makes `Block::try_from` fail with `MissingPath`, but `parse_markdown`
swallows that error and skips the fragment exactly like a non-tangle
address, so the run does not fail. -/
theorem c9_theorem :
    (∀ (p : String) (q : List (String × String)) (v : String),
        Block.try_from_url ⟨"tangle", none, p, q⟩ v = .error .missingPath) ∧
      ∀ (v : String) (rest : List Node),
        Lit.parse_markdown (Node.code (some "tangle:") v :: rest) =
          Lit.parse_markdown rest :=
  ⟨fun _ _ _ => rfl, fun _ _ => rfl⟩

/-- C10: every key starting with the sentinel letter 'm' is rejected at
construction, so a constructed `Position` never starts with 'm' and in
particular never equals the implicit key `"m"` that `to_content` assigns
to unpositioned blocks; hence no positioned entry of `all_blocks`
carries the key `"m"`. -/
theorem c10_theorem :
    (∀ s : String, s.data.head? = some 'm' →
        ∃ e, Position.try_from s = .error e) ∧
      (∀ p : Position, p.as_ref.data.head? ≠ some 'm' ∧ p.as_ref ≠ "m") ∧
      ∀ (fb : FileBlocks) (kc : String × String),
        kc ∈ fb.positioned.map (fun pc => (pc.1.as_ref, pc.2)) → kc.1 ≠ "m" := by
  have key : ∀ p : Position, p.as_ref.data.head? ≠ some 'm' ∧ p.as_ref ≠ "m" := by
    intro p
    have hp := p.property
    unfold posOk at hp
    rw [Bool.and_eq_true, Bool.and_eq_true] at hp
    have hm : (p.val.data.head? == some 'm') = false := by
      simpa using hp.2
    constructor
    · simpa using hm
    · intro hcontra
      rw [Position.as_ref] at hcontra
      rw [hcontra] at hm
      simp at hm
  refine ⟨fun s h => ?_, key, fun fb kc hmem => ?_⟩
  · unfold Position.try_from
    by_cases h1 : (s == "") = true
    · exact ⟨.empty, by simp [h1]⟩
    · by_cases h2 : (s.data.all fun c => c.isLower) = false
      · exact ⟨.invalidCharacters s, by simp [h1, h2]⟩
      · exact ⟨.reservedSentinel s, by simp [h1, h2, h]⟩
  · rcases List.mem_map.mp hmem with ⟨pc, _, rfl⟩
    exact (key pc.1).2

/-- C10 witness: the key `"m"` itself is concretely rejected, and the
concrete position `"a"` is distinct from the sentinel. -/
theorem c10_witness :
    (∃ e, Position.try_from "m" = .error e) ∧ posA.as_ref ≠ "m" :=
  ⟨c10_theorem.1 "m" (by decide), (c10_theorem.2.1 posA).2⟩
